import Mathlib

/-
Verification of the Plan/Fact reconciliation pipeline of `app.py`
(stockmagazin).  The pandas data frames are embedded shallowly as lists of
records whose cells are tagged values (string / number / missing); floats are
modelled as rationals plus an explicit infinity constructor where the code can
produce `np.inf`.  Each definition below is a direct translation of the code
at the cited lines of `app.py`.
-/

namespace PlanFact

/-- A spreadsheet cell as held in a pandas object column: a string, a finite
number (modelled as a rational), or a missing value (`NaN`/`None`). -/
inductive Val where
  | vstr (s : String)
  | vnum (q : ℚ)
  | vnull
  deriving DecidableEq

/-- Whether a cell holds a string. -/
def Val.isStr : Val → Bool
  | .vstr _ => true
  | _ => false

/-- Whether a cell holds a (finite, non-null) number. -/
def Val.isNum : Val → Bool
  | .vnum _ => true
  | _ => false

/-- The numeric content of a cell, with missing values contributing 0 — the
semantics pandas `sum` gives a column (`skipna=True` skips `NaN` cells, an
all-`NaN` column sums to 0). -/
def Val.orZero : Val → ℚ
  | .vnum q => q
  | _ => 0

/-- `pd.to_numeric(col, errors='coerce')` (app.py line 218) applied to one
cell: numbers pass through, an integer-literal string parses to its value,
anything else coerces to missing.  (Parsing of non-integer numeric strings is
not modelled; no claim depends on it.) -/
def Val.toNumeric : Val → Val
  | .vnum q => .vnum q
  | .vstr s =>
    match s.toInt? with
    | some n => .vnum n
    | none => .vnull
  | .vnull => .vnull

/-- `fillna(0)` (app.py line 220) applied to one cell. -/
def Val.fillZero : Val → Val
  | .vnull => .vnum 0
  | v => v

/-- The processing of one cell of a numeric column (app.py lines 216-220):
always `to_numeric(errors='coerce')`, then `fillna(0)` exactly when the
"fill zeros" checkbox (default on) is set. -/
def Val.numFill (fz : Bool) (v : Val) : Val :=
  if fz then v.toNumeric.fillZero else v.toNumeric

/-- Elementwise product of two numeric columns (`NaN` propagates, as for
pandas float columns; the string case cannot arise after `to_numeric`). -/
def Val.vmul : Val → Val → Val
  | .vnum a, .vnum b => .vnum (a * b)
  | _, _ => .vnull

/-- Elementwise difference of two numeric columns (`NaN` propagates). -/
def Val.vsub : Val → Val → Val
  | .vnum a, .vnum b => .vnum (a - b)
  | _, _ => .vnull

/-- The vectorized comparison `col > 0` of app.py lines 229/234: true exactly
on positive numbers (`NaN > 0` is `False` in numpy). -/
def Val.gtZeroB : Val → Bool
  | .vnum q => decide (0 < q)
  | _ => false

/-- The vectorized comparison `col != 0` of app.py lines 231/236: `NaN != 0`
evaluates to `True` in numpy, so only a literal numeric zero fails it. -/
def Val.neZeroB : Val → Bool
  | .vnum q => decide (q ≠ 0)
  | _ => true

/-- A float that can appear in a percentage column: a finite number, the
infinity `np.inf` that line 231/236 can produce, or a `NaN` (possible only
when zero-filling is disabled and a null deviation is divided by a positive
plan). -/
inductive RPct where
  | num (q : ℚ)
  | inf
  | nan
  deriving DecidableEq

/-- A float in a summary percentage column: finite or `np.inf` (the summary
numerators/denominators are sums, hence never `NaN`). -/
inductive SPct where
  | num (q : ℚ)
  | inf
  deriving DecidableEq

/-- A row of the renamed Plan table (app.py line 196): the nine canonical
Plan columns of `PLAN_REQUIRED_FIELDS`. -/
structure PlanRow where
  magazin : Val
  ART : Val
  Describe : Val
  MOD : Val
  Price : Val
  brend : Val
  Segment : Val
  Plan_STUKI : Val
  Plan_GRN : Val
  deriving DecidableEq

/-- A row of the renamed Fact table (app.py line 197): the five canonical
Fact columns of `FACT_REQUIRED_FIELDS`. -/
structure FactRow where
  magazin : Val
  ART : Val
  Describe : Val
  MOD : Val
  Fact_STUKI : Val
  deriving DecidableEq

/-- The composite merge key `['магазин', 'ART', 'Describe', 'MOD']`
(app.py line 200). -/
abbrev MKey := Val × Val × Val × Val

/-- Merge key of a Plan row. -/
def PlanRow.key (r : PlanRow) : MKey := (r.magazin, r.ART, r.Describe, r.MOD)

/-- Merge key of a Fact row. -/
def FactRow.key (r : FactRow) : MKey := (r.magazin, r.ART, r.Describe, r.MOD)

/-- A row of `merged_df` right after the outer merge (app.py line 212),
before any numeric processing: key columns plus both sides' payload columns,
with the absent side's columns `NaN`. -/
structure MRow where
  magazin : Val
  ART : Val
  Describe : Val
  MOD : Val
  Price : Val
  brend : Val
  Segment : Val
  Plan_STUKI : Val
  Plan_GRN : Val
  Fact_STUKI : Val
  deriving DecidableEq

/-- Merge key of a merged row. -/
def MRow.key (r : MRow) : MKey := (r.magazin, r.ART, r.Describe, r.MOD)

/-- A fully processed row of `merged_df` (app.py lines 214-237): the merged
columns after numeric coercion/filling plus the five derived columns. -/
structure DRow where
  magazin : Val
  ART : Val
  Describe : Val
  MOD : Val
  Price : Val
  brend : Val
  Segment : Val
  Plan_STUKI : Val
  Plan_GRN : Val
  Fact_STUKI : Val
  Fact_GRN : Val
  Otkl_sht : Val
  Otkl_grn : Val
  Otkl_pct_sht : RPct
  Otkl_pct_grn : RPct
  deriving DecidableEq

/-- Merge key of a processed row. -/
def DRow.key (r : DRow) : MKey := (r.magazin, r.ART, r.Describe, r.MOD)

/-- The row predicate of `dropna(subset=merge_keys)` (app.py line 203): the
row is kept iff none of the four key cells is missing.  Note pandas `dropna`
looks only for `NaN`/`None`; empty or whitespace strings are not missing. -/
def PlanRow.keyNotNull (r : PlanRow) : Bool :=
  decide (r.magazin ≠ Val.vnull) && decide (r.ART ≠ Val.vnull) &&
    decide (r.Describe ≠ Val.vnull) && decide (r.MOD ≠ Val.vnull)

/-- The row predicate of `dropna(subset=merge_keys)` for the Fact side
(app.py line 204). -/
def FactRow.keyNotNull (r : FactRow) : Bool :=
  decide (r.magazin ≠ Val.vnull) && decide (r.ART ≠ Val.vnull) &&
    decide (r.Describe ≠ Val.vnull) && decide (r.MOD ≠ Val.vnull)

/-- `dropna(subset=merge_keys)` on the Plan side (app.py line 203). -/
def planDropna (l : List PlanRow) : List PlanRow :=
  l.filter PlanRow.keyNotNull

/-- `dropna(subset=merge_keys)` on the Fact side (app.py line 204). -/
def factDropna (l : List FactRow) : List FactRow :=
  l.filter FactRow.keyNotNull

/-- Worker for `drop_duplicates(subset=merge_keys)` (pandas `keep='first'`):
walk the rows in order, keeping a row iff its key has not been seen yet. -/
def dedupGo (key : α → κ) [DecidableEq κ] (seen : List κ) : List α → List α
  | [] => []
  | x :: xs =>
    if key x ∈ seen then dedupGo key seen xs
    else x :: dedupGo key (key x :: seen) xs

/-- `drop_duplicates(subset=merge_keys)` (app.py lines 208-209): keep the
first row in input order for each key, discard all later rows with the same
key. -/
def dedupByKey (key : α → κ) [DecidableEq κ] (l : List α) : List α :=
  dedupGo key [] l

/-- The cleaning of the Plan side (app.py lines 203-209): drop rows with a
missing key cell, then, iff the "remove duplicates" checkbox (default on) is
set, drop duplicate keys. -/
def cleanPlan (rd : Bool) (l : List PlanRow) : List PlanRow :=
  if rd then dedupByKey PlanRow.key (planDropna l) else planDropna l

/-- The cleaning of the Fact side (app.py lines 204-209). -/
def cleanFact (rd : Bool) (l : List FactRow) : List FactRow :=
  if rd then dedupByKey FactRow.key (factDropna l) else factDropna l

/-- A merged row carrying both sides (an inner match of the outer join). -/
def combineRow (p : PlanRow) (f : FactRow) : MRow :=
  { magazin := p.magazin, ART := p.ART, Describe := p.Describe, MOD := p.MOD,
    Price := p.Price, brend := p.brend, Segment := p.Segment,
    Plan_STUKI := p.Plan_STUKI, Plan_GRN := p.Plan_GRN,
    Fact_STUKI := f.Fact_STUKI }

/-- A merged row for a Plan row with no Fact match: the Fact column is
`NaN`. -/
def planOnlyRow (p : PlanRow) : MRow :=
  { magazin := p.magazin, ART := p.ART, Describe := p.Describe, MOD := p.MOD,
    Price := p.Price, brend := p.brend, Segment := p.Segment,
    Plan_STUKI := p.Plan_STUKI, Plan_GRN := p.Plan_GRN,
    Fact_STUKI := Val.vnull }

/-- A merged row for a Fact row with no Plan match: all Plan-side payload
columns are `NaN`. -/
def factOnlyRow (f : FactRow) : MRow :=
  { magazin := f.magazin, ART := f.ART, Describe := f.Describe, MOD := f.MOD,
    Price := Val.vnull, brend := Val.vnull, Segment := Val.vnull,
    Plan_STUKI := Val.vnull, Plan_GRN := Val.vnull,
    Fact_STUKI := f.Fact_STUKI }

/-- The merged rows contributed by one Plan row: one combined row per
Fact row with an equal key, or a single plan-only row when no Fact row
matches. -/
def mergeBlock (fact : List FactRow) (p : PlanRow) : List MRow :=
  let ms := fact.filter fun f => decide (f.key = p.key)
  if ms.isEmpty then [planOnlyRow p] else ms.map (combineRow p)

/-- The left part of the outer merge: every Plan row's block, in order. -/
def outerMergeL (fact : List FactRow) : List PlanRow → List MRow
  | [] => []
  | p :: ps => mergeBlock fact p ++ outerMergeL fact ps

/-- The right part of the outer merge: Fact rows whose key matches no Plan
row at all. -/
def outerMergeR (plan : List PlanRow) (fact : List FactRow) : List MRow :=
  (fact.filter fun f => !(plan.any fun p => decide (p.key = f.key))).map
    factOnlyRow

/-- `pd.merge(plan, fact, on=merge_keys, how='outer')` (app.py line 212):
matched pairs (one row per pair, cartesian within equal-key groups), then
unmatched Fact rows.  Row order within the result is immaterial to every
property proved below. -/
def outerMerge (plan : List PlanRow) (fact : List FactRow) : List MRow :=
  outerMergeL fact plan ++ outerMergeR plan fact

/-- The row-level percentage columns of app.py lines 228-237, for one row:
if the plan cell is a positive number the percentage is `dev / plan * 100`
(a `NaN` deviation gives `NaN`); otherwise `np.inf` when the deviation
compares nonzero (`NaN != 0` is true) and `0` when it is a literal zero. -/
def rowPct (plan dev : Val) : RPct :=
  if plan.gtZeroB then
    match dev, plan with
    | Val.vnum d, Val.vnum p => RPct.num (d / p * 100)
    | _, _ => RPct.nan
  else if dev.neZeroB then RPct.inf
  else RPct.num 0

/-- The per-row numeric processing of app.py lines 214-237, in source order:
coerce/fill the four numeric columns, then derive `Fact_GRN`,
`Отклонение_шт`, `Отклонение_грн` and the two percentage columns. -/
def deriveRow (fz : Bool) (r : MRow) : DRow :=
  let pq := r.Plan_STUKI.numFill fz
  let fq := r.Fact_STUKI.numFill fz
  let pg := r.Plan_GRN.numFill fz
  let pr := r.Price.numFill fz
  let fg := Val.vmul fq pr
  let osh := Val.vsub fq pq
  let ogr := Val.vsub fg pg
  { magazin := r.magazin, ART := r.ART, Describe := r.Describe, MOD := r.MOD,
    Price := pr, brend := r.brend, Segment := r.Segment,
    Plan_STUKI := pq, Plan_GRN := pg, Fact_STUKI := fq, Fact_GRN := fg,
    Otkl_sht := osh, Otkl_grn := ogr,
    Otkl_pct_sht := rowPct pq osh, Otkl_pct_grn := rowPct pg ogr }

/-- The whole reconciliation run of app.py lines 200-237: clean both sides,
outer-merge them on the composite key, and derive the numeric columns.
`rd`/`fz` are the "remove duplicates" / "fill zeros" checkboxes (both default
on). -/
def processData (rd fz : Bool) (plan : List PlanRow) (fact : List FactRow) :
    List DRow :=
  (outerMerge (cleanPlan rd plan) (cleanFact rd fact)).map (deriveRow fz)

/-- A row of `store_summary` (app.py lines 264-282): a store key with the
four summed columns and the four derived deviation columns.  The sums are
plain rationals because pandas `sum` skips `NaN` cells. -/
structure StoreSummary where
  magazin : Val
  Plan_STUKI : ℚ
  Fact_STUKI : ℚ
  Plan_GRN : ℚ
  Fact_GRN : ℚ
  Otkl_sht : ℚ
  Otkl_grn : ℚ
  Otkl_pct_sht : SPct
  Otkl_pct_grn : SPct
  deriving DecidableEq

/-- pandas column `sum` over a group: missing cells contribute 0. -/
def sumField (f : DRow → Val) (rows : List DRow) : ℚ :=
  (rows.map fun r => (f r).orZero).sum

/-- The distinct group keys of `groupby('магазин')` (app.py line 264): the
distinct non-null store values, in first-occurrence order (pandas drops `NaN`
group keys; the order in which groups are listed is immaterial to every
property proved below). -/
def storeGroups (rows : List DRow) : List Val :=
  dedupByKey id ((rows.map fun r => r.magazin).filter fun v =>
    decide (v ≠ Val.vnull))

/-- The summary percentage of app.py lines 273-282: with a positive summed
plan it is `abs(deviation) / plan * 100`; otherwise `np.inf` for a nonzero
deviation and `0` for a zero one.  Unlike the row-level rule (lines 228-237)
the numerator carries `abs`. -/
def summaryPct (plan dev : ℚ) : SPct :=
  if 0 < plan then SPct.num (|dev| / plan * 100)
  else if dev ≠ 0 then SPct.inf
  else SPct.num 0

/-- One `store_summary` row (app.py lines 264-282): sum the four numeric
columns over the group's rows, then derive deviations and percentages from
the sums. -/
def mkStoreSummary (rows : List DRow) (k : Val) : StoreSummary :=
  let grp := rows.filter fun r => decide (r.magazin = k)
  let ps := sumField (fun r => r.Plan_STUKI) grp
  let fs := sumField (fun r => r.Fact_STUKI) grp
  let pg := sumField (fun r => r.Plan_GRN) grp
  let fg := sumField (fun r => r.Fact_GRN) grp
  { magazin := k, Plan_STUKI := ps, Fact_STUKI := fs,
    Plan_GRN := pg, Fact_GRN := fg,
    Otkl_sht := fs - ps, Otkl_grn := fg - pg,
    Otkl_pct_sht := summaryPct ps (fs - ps),
    Otkl_pct_grn := summaryPct pg (fg - pg) }

/-- `store_summary` (app.py lines 264-282): one summary row per distinct
store value of the processed table. -/
def storeSummary (rows : List DRow) : List StoreSummary :=
  (storeGroups rows).map (mkStoreSummary rows)

/-- The four sort keys offered by the `sort_by` selectbox
(app.py lines 292-295). -/
inductive SortKey where
  | pctSht
  | pctGrn
  | sht
  | grn
  deriving DecidableEq

/-- The cell a summary row shows under the chosen sort key, as the float the
sort compares (finite or `np.inf`). -/
def sortVal (k : SortKey) (s : StoreSummary) : SPct :=
  match k with
  | .pctSht => s.Otkl_pct_sht
  | .pctGrn => s.Otkl_pct_grn
  | .sht => SPct.num s.Otkl_sht
  | .grn => SPct.num s.Otkl_grn

/-- Float comparison on summary cells: any finite number is below `np.inf`. -/
def SPct.leB : SPct → SPct → Bool
  | _, .inf => true
  | .inf, .num _ => false
  | .num a, .num b => decide (a ≤ b)

/-- Whether a summary cell is non-negative (`np.inf` counts as positive). -/
def SPct.nonneg : SPct → Bool
  | .num q => decide (0 ≤ q)
  | .inf => true

/-- The vectorized filter `store_summary['Отклонение_%_шт'] > threshold`
(app.py lines 298-300): `np.inf` exceeds every threshold. -/
def pctGtB (v : SPct) (th : ℚ) : Bool :=
  match v with
  | .num q => decide (th < q)
  | .inf => true

/-- Insert an element into a list kept in descending `f`-order. -/
def insertByDesc (f : α → SPct) (x : α) : List α → List α
  | [] => [x]
  | y :: ys =>
    if SPct.leB (f y) (f x) then x :: y :: ys else y :: insertByDesc f x ys

/-- `sort_values(by=sort_by, ascending=False)` (app.py line 300), modelled as
an insertion sort: the output is a permutation of the input arranged in
descending signed order of the chosen key (pandas's tie order is not
modelled; no claim concerns ties). -/
def sortByDesc (f : α → SPct) : List α → List α
  | [] => []
  | x :: xs => insertByDesc f x (sortByDesc f xs)

/-- `problem_stores_df` (app.py lines 298-300): keep the summary rows whose
`Отклонение_%_шт` exceeds the threshold, then sort descending by the chosen
key's signed value. -/
def problemStores (summary : List StoreSummary) (th : ℚ) (k : SortKey) :
    List StoreSummary :=
  sortByDesc (sortVal k) (summary.filter fun s => pctGtB s.Otkl_pct_sht th)

/-- The column choices the user made in the mapping form for the nine Plan
fields of `PLAN_REQUIRED_FIELDS` (app.py lines 107-117, 143-148); the empty
string means "no column chosen". -/
structure PlanMapping where
  magazin : String
  ART : String
  Describe : String
  MOD : String
  Price : String
  brend : String
  Segment : String
  Plan_STUKI : String
  Plan_GRN : String
  deriving DecidableEq

/-- The column choices for the five Fact fields of `FACT_REQUIRED_FIELDS`
(app.py lines 119-125, 160-165). -/
structure FactMapping where
  magazin : String
  ART : String
  Describe : String
  MOD : String
  Fact_STUKI : String
  deriving DecidableEq

/-- The `plan_mappings` dict in iteration order: internal field name paired
with the chosen source column. -/
def PlanMapping.fields (m : PlanMapping) : List (String × String) :=
  [("магазин", m.magazin), ("ART", m.ART), ("Describe", m.Describe),
    ("MOD", m.MOD), ("Price", m.Price), ("brend", m.brend),
    ("Segment", m.Segment), ("Plan_STUKI", m.Plan_STUKI),
    ("Plan_GRN", m.Plan_GRN)]

/-- The `fact_mappings` dict in iteration order. -/
def FactMapping.fields (m : FactMapping) : List (String × String) :=
  [("магазин", m.magazin), ("ART", m.ART), ("Describe", m.Describe),
    ("MOD", m.MOD), ("Fact_STUKI", m.Fact_STUKI)]

/-- `empty_plan_fields` (app.py line 177): the internal names of Plan fields
whose chosen column is empty. -/
def emptyPlanFields (m : PlanMapping) : List String :=
  (m.fields.filter fun kv => decide (kv.2 = "")).map fun kv => kv.1

/-- `empty_fact_fields` (app.py line 178). -/
def emptyFactFields (m : FactMapping) : List String :=
  (m.fields.filter fun kv => decide (kv.2 = "")).map fun kv => kv.1

/-- `plan_values` (app.py line 185): the chosen non-empty Plan columns. -/
def planValues (m : PlanMapping) : List String :=
  (m.fields.map fun kv => kv.2).filter fun v => decide (v ≠ "")

/-- `fact_values` (app.py line 186). -/
def factValues (m : FactMapping) : List String :=
  (m.fields.map fun kv => kv.2).filter fun v => decide (v ≠ "")

/-- The two classified mapping errors the form handler can report. -/
inductive MapError where
  | emptyFields (fields : List String)
  | duplicateColumn
  deriving DecidableEq

/-- The mapping validation of app.py lines 176-190, in source order: first
report the fields with no chosen column (lines 180-182), then report a source
column chosen for two different fields of the same file (python's
`len(values) != len(set(values))`, lines 188-190); `none` means validation
passed. -/
def validateMappings (pm : PlanMapping) (fm : FactMapping) : Option MapError :=
  let ep := emptyPlanFields pm
  let ef := emptyFactFields fm
  if ep ≠ [] ∨ ef ≠ [] then some (MapError.emptyFields (ep ++ ef))
  else if ¬ (planValues pm).Nodup ∨ ¬ (factValues fm).Nodup then
    some MapError.duplicateColumn
  else none

/-- The outcome a submission writes to `st.session_state.processed_df`
(app.py lines 239 and 252-254): a successful run stores its merged table; a
run that raises stores `None` — the code's `except` branch assigns `None`
before showing the error message. -/
def runSubmit (res : Except String (List DRow)) : Option (List DRow) :=
  match res with
  | Except.ok t => some t
  | Except.error _ => none

/-- One full submission of the form (app.py lines 174-254) over tables
already in canonical column shape: a mapping validation failure ends the run
with an error (`st.error` + `st.stop()`; streamlit's `StopException` derives
from `Exception`, so it lands in the same `except` branch), and otherwise the
data processing runs. -/
def processSubmission (pm : PlanMapping) (fm : FactMapping) (rd fz : Bool)
    (plan : List PlanRow) (fact : List FactRow) :
    Except String (List DRow) :=
  match validateMappings pm fm with
  | some _ => Except.error "mapping validation failed"
  | none => Except.ok (processData rd fz plan fact)

/-- The stored result after a submission, as a function of the previously
stored result: app.py line 239 overwrites it on success and line 253
overwrites it with `None` on failure — the previous value is never kept. -/
def sessionAfterSubmit (prev : Option (List DRow)) (pm : PlanMapping)
    (fm : FactMapping) (rd fz : Bool) (plan : List PlanRow)
    (fact : List FactRow) : Option (List DRow) :=
  match prev with
  | _ => runSubmit (processSubmission pm fm rd fz plan fact)

/-- Whether none of a composite key's four cells is missing. -/
def MKey.allPresent (k : MKey) : Bool :=
  decide (k.1 ≠ Val.vnull) && decide (k.2.1 ≠ Val.vnull) &&
    decide (k.2.2.1 ≠ Val.vnull) && decide (k.2.2.2 ≠ Val.vnull)

/-- A canonical Plan row: store S5, article A1, price 100, plan 10 pcs /
1000 money. -/
def demoPlanA : PlanRow :=
  { magazin := Val.vstr "S5", ART := Val.vstr "A1", Describe := Val.vstr "d1",
    MOD := Val.vstr "m1", Price := Val.vnum 100, brend := Val.vstr "b1",
    Segment := Val.vstr "g1", Plan_STUKI := Val.vnum 10,
    Plan_GRN := Val.vnum 1000 }

/-- A Fact row for the same store and article as `demoPlanA` but with a
different description and model, hence a different composite merge key. -/
def demoFactKeyMismatch : FactRow :=
  { magazin := Val.vstr "S5", ART := Val.vstr "A1", Describe := Val.vstr "d2",
    MOD := Val.vstr "m2", Fact_STUKI := Val.vnum 7 }

/-- A Fact row matching `demoPlanA` on the full composite key, with 7 pcs. -/
def demoFactMatch : FactRow :=
  { magazin := Val.vstr "S5", ART := Val.vstr "A1", Describe := Val.vstr "d1",
    MOD := Val.vstr "m1", Fact_STUKI := Val.vnum 4 }

/-- A Fact row whose key matches no Plan row: store S9, article Z9, 4 pcs. -/
def demoFactOnly : FactRow :=
  { magazin := Val.vstr "S9", ART := Val.vstr "Z9", Describe := Val.vstr "dz",
    MOD := Val.vstr "mz", Fact_STUKI := Val.vnum 4 }

/-- A Plan row with a negative planned quantity. -/
def demoPlanNegative : PlanRow :=
  { demoPlanA with magazin := Val.vstr "S7", Plan_STUKI := Val.vnum (-5) }

/-- A Plan row with a missing description but non-empty store and article. -/
def demoPlanNullDescribe : PlanRow :=
  { demoPlanA with Describe := Val.vnull }

/-- A Plan row whose store is a whitespace-only string. -/
def demoPlanWsStore : PlanRow :=
  { demoPlanA with magazin := Val.vstr " " }

/-- A Plan row whose store cell holds the number 101 (a numeric-looking
store code kept as a number by the source spreadsheet). -/
def demoPlanNumStore : PlanRow :=
  { demoPlanA with magazin := Val.vnum 101 }

/-- A second Plan row with the same composite key as `demoPlanA` but a
different planned quantity. -/
def demoPlanDupOfA : PlanRow :=
  { demoPlanA with Plan_STUKI := Val.vnum 3, Plan_GRN := Val.vnum 300 }

/-- A reconciled row: store S, plan 10 pcs, fact 7 pcs, deviation -3. -/
def demoDRow : DRow :=
  { magazin := Val.vstr "S", ART := Val.vstr "A", Describe := Val.vstr "d",
    MOD := Val.vstr "m", Price := Val.vnum 100, brend := Val.vstr "b",
    Segment := Val.vstr "g", Plan_STUKI := Val.vnum 10,
    Plan_GRN := Val.vnum 1000, Fact_STUKI := Val.vnum 7,
    Fact_GRN := Val.vnum 700, Otkl_sht := Val.vnum (-3),
    Otkl_grn := Val.vnum (-300), Otkl_pct_sht := RPct.num (-30),
    Otkl_pct_grn := RPct.num (-30) }

/-- A Plan mapping that chooses distinct columns for the four fields the
spec calls required (store, article, plan quantity, plan amount) but leaves
the description field unmapped. -/
def mapPlanNoDescribe : PlanMapping :=
  { magazin := "c1", ART := "c2", Describe := "", MOD := "c4", Price := "c5",
    brend := "c6", Segment := "c7", Plan_STUKI := "c8", Plan_GRN := "c9" }

/-- A Plan mapping choosing distinct columns for all nine fields. -/
def mapPlanFull : PlanMapping :=
  { magazin := "c1", ART := "c2", Describe := "c3", MOD := "c4",
    Price := "c5", brend := "c6", Segment := "c7", Plan_STUKI := "c8",
    Plan_GRN := "c9" }

/-- A Fact mapping choosing distinct columns for all five fields. -/
def mapFactFull : FactMapping :=
  { magazin := "d1", ART := "d2", Describe := "d3", MOD := "d4",
    Fact_STUKI := "d5" }

/-- A summary row for store A with unit deviation +5 and percentage 50. -/
def demoSummaryA : StoreSummary :=
  { magazin := Val.vstr "A", Plan_STUKI := 10, Fact_STUKI := 15,
    Plan_GRN := 100, Fact_GRN := 100, Otkl_sht := 5, Otkl_grn := 0,
    Otkl_pct_sht := SPct.num 50, Otkl_pct_grn := SPct.num 0 }

/-- A summary row for store B with unit deviation -10 and percentage 50. -/
def demoSummaryB : StoreSummary :=
  { magazin := Val.vstr "B", Plan_STUKI := 20, Fact_STUKI := 10,
    Plan_GRN := 100, Fact_GRN := 100, Otkl_sht := -10, Otkl_grn := 0,
    Otkl_pct_sht := SPct.num 50, Otkl_pct_grn := SPct.num 0 }

/-- The spec's row-level percentage derivation rule applied to a group's
summed plan and deviation.  Modelled from the spec: claim C5 states summary
percentages are recomputed from summed values "by the same derivation rules
as at row level", i.e. the signed rule of app.py lines 228-232. -/
def specRowRulePct (plan dev : ℚ) : SPct :=
  if 0 < plan then SPct.num (dev / plan * 100)
  else if dev ≠ 0 then SPct.inf
  else SPct.num 0

section ListHelpers

variable {α : Type _} {κ : Type _}

/-- Counting under a pointwise-equal predicate. -/
theorem countP_congrB (l : List α) (p q : α → Bool)
    (h : ∀ a ∈ l, p a = q a) : l.countP p = l.countP q := by
  induction l with
  | nil => rfl
  | cons x xs ih =>
    have hx := h x (List.mem_cons_self x xs)
    have ihh := ih fun a ha => h a (List.mem_cons_of_mem x ha)
    simp [List.countP_cons, hx, ihh]

/-- Counting after a map. -/
theorem countP_mapB (l : List α) (f : α → β) (p : β → Bool) :
    (l.map f).countP p = l.countP fun a => p (f a) := by
  induction l with
  | nil => rfl
  | cons x xs ih => simp [List.countP_cons, ih]

/-- Counting inside a filter. -/
theorem countP_filterB (l : List α) (p q : α → Bool) :
    (l.filter q).countP p = l.countP fun a => q a && p a := by
  induction l with
  | nil => rfl
  | cons x xs ih =>
    by_cases hq : q x = true
    · simp [List.filter_cons, hq, List.countP_cons, ih]
    · simp only [Bool.not_eq_true] at hq
      simp [List.filter_cons, hq, List.countP_cons, ih]

/-- Searching inside a filter. -/
theorem find?_filterB (l : List α) (p q : α → Bool) :
    (l.filter q).find? p = l.find? fun a => q a && p a := by
  induction l with
  | nil => rfl
  | cons x xs ih =>
    by_cases hq : q x = true
    · by_cases hp : p x = true
      · simp [List.filter_cons, hq, List.find?_cons, hp]
      · simp only [Bool.not_eq_true] at hp
        simp [List.filter_cons, hq, List.find?_cons, hp, ih]
    · simp only [Bool.not_eq_true] at hq
      simp [List.filter_cons, hq, List.find?_cons, ih]

/-- Searching under a pointwise-equal predicate. -/
theorem find?_congrB (l : List α) (p q : α → Bool)
    (h : ∀ a ∈ l, p a = q a) : l.find? p = l.find? q := by
  induction l with
  | nil => rfl
  | cons x xs ih =>
    have hx := h x (List.mem_cons_self x xs)
    have ihh := ih fun a ha => h a (List.mem_cons_of_mem x ha)
    by_cases hp : p x = true
    · simp [List.find?_cons, hp, hx ▸ hp]
    · simp only [Bool.not_eq_true] at hp
      have hq : q x = false := hx ▸ hp
      simp [List.find?_cons, hp, hq, ihh]

/-- A list whose mapped keys repeat nowhere holds at most one element of any
given key. -/
theorem countP_key_le_one [DecidableEq κ] (key : α → κ) (l : List α)
    (h : (l.map key).Nodup) (k : κ) :
    l.countP (fun x => decide (key x = k)) ≤ 1 := by
  induction l with
  | nil => simp
  | cons x xs ih =>
    simp only [List.map_cons, List.nodup_cons] at h
    by_cases hx : key x = k
    · have hz : xs.countP (fun x => decide (key x = k)) = 0 := by
        rw [List.countP_eq_zero]
        intro a ha
        simp only [decide_eq_true_eq]
        intro hak
        exact h.1 (hx ▸ hak ▸ List.mem_map_of_mem key ha)
      simp [List.countP_cons, hx, hz]
    · simpa [List.countP_cons, hx] using ih h.2

/-- A list holds at least one element of any key appearing among its mapped
keys. -/
theorem countP_key_pos [DecidableEq κ] (key : α → κ) (l : List α)
    (h : k ∈ l.map key) : 1 ≤ l.countP fun x => decide (key x = k) := by
  rcases List.mem_map.mp h with ⟨x, hx, hk⟩
  exact List.countP_pos_iff.mpr ⟨x, hx, by simp [hk]⟩

/-- `dedupGo` returns a subsequence of its input. -/
theorem dedupGo_sublist [DecidableEq κ] (key : α → κ) :
    ∀ (l : List α) (seen : List κ), List.Sublist (dedupGo key seen l) l
  | [], _ => List.Sublist.slnil
  | x :: xs, seen => by
    simp only [dedupGo]
    split
    · exact (dedupGo_sublist key xs seen).cons x
    · exact (dedupGo_sublist key xs (key x :: seen)).cons₂ x

/-- No key of a `dedupGo` result was in the seen set it started from. -/
theorem dedupGo_not_seen [DecidableEq κ] (key : α → κ) :
    ∀ (l : List α) (seen : List κ) (k : κ),
      k ∈ (dedupGo key seen l).map key → k ∉ seen
  | [], _, _ => by simp [dedupGo]
  | x :: xs, seen, k => by
    by_cases hin : key x ∈ seen
    · simp only [dedupGo, if_pos hin]
      exact dedupGo_not_seen key xs seen k
    · simp only [dedupGo, if_neg hin, List.map_cons, List.mem_cons]
      intro hk
      rcases hk with h1 | h1
      · intro hs
        exact hin (h1 ▸ hs)
      · intro hs
        exact dedupGo_not_seen key xs (key x :: seen) k h1
          (List.mem_cons_of_mem _ hs)

/-- The keys of a `dedupGo` result repeat nowhere. -/
theorem dedupGo_keys_nodup [DecidableEq κ] (key : α → κ) :
    ∀ (l : List α) (seen : List κ), ((dedupGo key seen l).map key).Nodup
  | [], _ => by simp [dedupGo]
  | x :: xs, seen => by
    simp only [dedupGo]
    split
    · exact dedupGo_keys_nodup key xs seen
    · simp only [List.map_cons, List.nodup_cons]
      constructor
      · intro hk
        have := dedupGo_not_seen key xs (key x :: seen) (key x) hk
        exact this (List.mem_cons_self _ _)
      · exact dedupGo_keys_nodup key xs (key x :: seen)

/-- `dedupGo` keeps, for every unseen key, exactly the first element bearing
it. -/
theorem dedupGo_find? [DecidableEq κ] (key : α → κ) :
    ∀ (l : List α) (seen : List κ) (k : κ), k ∉ seen →
      (dedupGo key seen l).find? (fun x => decide (key x = k)) =
        l.find? fun x => decide (key x = k)
  | [], _, _, _ => by simp [dedupGo]
  | x :: xs, seen, k, hk => by
    by_cases hxk : key x = k
    · have hxs : key x ∉ seen := hxk ▸ hk
      simp only [dedupGo, if_neg hxs]
      rw [List.find?_cons_of_pos _ (by simp [hxk]),
        List.find?_cons_of_pos _ (by simp [hxk])]
    · by_cases hin : key x ∈ seen
      · simp only [dedupGo, if_pos hin]
        rw [List.find?_cons_of_neg _ (by simp [hxk])]
        exact dedupGo_find? key xs seen k hk
      · have hk2 : k ∉ key x :: seen := by
          intro h
          rcases List.mem_cons.mp h with h1 | h1
          · exact hxk h1.symm
          · exact hk h1
        simp only [dedupGo, if_neg hin]
        rw [List.find?_cons_of_neg _ (by simp [hxk]),
          List.find?_cons_of_neg _ (by simp [hxk])]
        exact dedupGo_find? key xs (key x :: seen) k hk2

/-- Every unseen key of the input survives into a `dedupGo` result. -/
theorem dedupGo_covers [DecidableEq κ] (key : α → κ) :
    ∀ (l : List α) (seen : List κ) (r : α), r ∈ l → key r ∉ seen →
      key r ∈ (dedupGo key seen l).map key
  | [], _, _, hr, _ => absurd hr (List.not_mem_nil _)
  | x :: xs, seen, r, hr, hs => by
    by_cases hin : key x ∈ seen
    · simp only [dedupGo, if_pos hin]
      rcases List.mem_cons.mp hr with h1 | h1
      · exact absurd (h1 ▸ hin) hs
      · exact dedupGo_covers key xs seen r h1 hs
    · simp only [dedupGo, if_neg hin, List.map_cons, List.mem_cons]
      rcases List.mem_cons.mp hr with h1 | h1
      · exact Or.inl (by rw [h1])
      · by_cases hkey : key r = key x
        · exact Or.inl hkey
        · refine Or.inr ?_
          have hns : key r ∉ key x :: seen := by
            intro h
            rcases List.mem_cons.mp h with h2 | h2
            · exact hkey h2
            · exact hs h2
          exact dedupGo_covers key xs (key x :: seen) r h1 hns

end ListHelpers

/-- The Plan-side empty-field list is empty iff every Plan field got a
column. -/
theorem emptyPlanFields_nil_iff (pm : PlanMapping) :
    emptyPlanFields pm = [] ↔ ∀ kv ∈ pm.fields, kv.2 ≠ "" := by
  unfold emptyPlanFields
  rw [List.map_eq_nil_iff, List.filter_eq_nil_iff]
  simp

/-- The Fact-side empty-field list is empty iff every Fact field got a
column. -/
theorem emptyFactFields_nil_iff (fm : FactMapping) :
    emptyFactFields fm = [] ↔ ∀ kv ∈ fm.fields, kv.2 ≠ "" := by
  unfold emptyFactFields
  rw [List.map_eq_nil_iff, List.filter_eq_nil_iff]
  simp

/-- Unfolding of the two-stage mapping validation. -/
theorem validateMappings_none_iff (pm : PlanMapping) (fm : FactMapping) :
    validateMappings pm fm = none ↔
      emptyPlanFields pm = [] ∧ emptyFactFields fm = [] ∧
        (planValues pm).Nodup ∧ (factValues fm).Nodup := by
  unfold validateMappings
  by_cases h1 : emptyPlanFields pm ≠ [] ∨ emptyFactFields fm ≠ []
  · rw [if_pos h1]
    simp only [reduceCtorEq, false_iff]
    intro h
    rcases h1 with h1 | h1
    · exact h1 h.1
    · exact h1 h.2.1
  · rw [if_neg h1]
    push_neg at h1
    by_cases h2 : ¬(planValues pm).Nodup ∨ ¬(factValues fm).Nodup
    · rw [if_pos h2]
      simp only [reduceCtorEq, false_iff]
      intro h
      rcases h2 with h2 | h2
      · exact h2 h.2.2.1
      · exact h2 h.2.2.2
    · rw [if_neg h2]
      push_neg at h2
      simp [h1.1, h1.2, h2.1, h2.2]

/-- C7 (corrected): the form handler of app.py lines 176-190 treats every
one of the nine Plan fields and five Fact fields as required — validation
passes exactly when each field has a non-empty chosen column and no source
column repeats within one side's mapping; the empty-field error names
exactly the unmapped fields. -/
theorem mapping_validation_characterisation (pm : PlanMapping)
    (fm : FactMapping) :
    (validateMappings pm fm = none ↔
      (∀ kv ∈ pm.fields, kv.2 ≠ "") ∧ (∀ kv ∈ fm.fields, kv.2 ≠ "") ∧
        (planValues pm).Nodup ∧ (factValues fm).Nodup) ∧
    ∀ fs, validateMappings pm fm = some (MapError.emptyFields fs) →
      fs = emptyPlanFields pm ++ emptyFactFields fm ∧ fs ≠ [] := by
  constructor
  · rw [validateMappings_none_iff, emptyPlanFields_nil_iff,
      emptyFactFields_nil_iff]
  · intro fs hfs
    unfold validateMappings at hfs
    by_cases h1 : emptyPlanFields pm ≠ [] ∨ emptyFactFields fm ≠ []
    · rw [if_pos h1] at hfs
      have hfs2 : fs = emptyPlanFields pm ++ emptyFactFields fm := by
        injection hfs with h
        injection h with h
        exact h.symm
      refine ⟨hfs2, ?_⟩
      subst hfs2
      intro hnil
      rcases h1 with h1 | h1
      · exact h1 (List.append_eq_nil.mp hnil).1
      · exact h1 (List.append_eq_nil.mp hnil).2
    · rw [if_neg h1] at hfs
      by_cases h2 : ¬(planValues pm).Nodup ∨ ¬(factValues fm).Nodup
      · rw [if_pos h2] at hfs
        exact absurd hfs (by simp)
      · rw [if_neg h2] at hfs
        exact absurd hfs (by simp)

/-- C7 witness: the fully mapped form passes validation with distinct
columns everywhere, and the characterisation applies to it. -/
theorem mapping_validation_characterisation_witness :
    validateMappings mapPlanFull mapFactFull = none :=
  ((mapping_validation_characterisation mapPlanFull mapFactFull).1).mpr
    ⟨by decide, by decide, by decide, by decide⟩

/-- C7 counterexample: a mapping that supplies distinct columns for every
field the spec calls required (store, article, plan quantity, plan amount on
the Plan side; everything on the Fact side) but leaves the optional-per-spec
description field unmapped is rejected by the code, naming `Describe`. -/
theorem mapping_validation_rejects_missing_describe :
    mapPlanNoDescribe.magazin ≠ "" ∧ mapPlanNoDescribe.ART ≠ "" ∧
      mapPlanNoDescribe.Plan_STUKI ≠ "" ∧ mapPlanNoDescribe.Plan_GRN ≠ "" ∧
      (planValues mapPlanNoDescribe).Nodup ∧
      (factValues mapFactFull).Nodup ∧
      validateMappings mapPlanNoDescribe mapFactFull =
        some (MapError.emptyFields ["Describe"]) := by
  decide

/-- C4 (corrected): a submission either validates and stores its freshly
processed table, or fails and stores `None` — the previously stored table is
overwritten in both cases, never preserved on failure. -/
theorem submission_overwrites_stored_result (prev : Option (List DRow))
    (pm : PlanMapping) (fm : FactMapping) (rd fz : Bool)
    (plan : List PlanRow) (fact : List FactRow) :
    (validateMappings pm fm = none →
      sessionAfterSubmit prev pm fm rd fz plan fact =
        some (processData rd fz plan fact)) ∧
    (validateMappings pm fm ≠ none →
      sessionAfterSubmit prev pm fm rd fz plan fact = none) := by
  constructor
  · intro h
    simp [sessionAfterSubmit, processSubmission, runSubmit, h]
  · intro h
    rcases hv : validateMappings pm fm with _ | e
    · exact absurd hv h
    · simp [sessionAfterSubmit, processSubmission, runSubmit, hv]

/-- C4 witness: a valid submission replaces a previously stored table with
the fresh result. -/
theorem submission_overwrites_stored_result_witness :
    sessionAfterSubmit (some [demoDRow]) mapPlanFull mapFactFull true true
        [demoPlanA] [demoFactMatch] =
      some (processData true true [demoPlanA] [demoFactMatch]) :=
  (submission_overwrites_stored_result (some [demoDRow]) mapPlanFull
    mapFactFull true true [demoPlanA] [demoFactMatch]).1 (by decide)

/-- C4 counterexample: a failed submission (here: a mapping with an unmapped
field) does not leave the previously stored successful table available — the
code's `except` branch overwrites `st.session_state.processed_df` with
`None`. -/
theorem failed_submission_clears_stored_result :
    sessionAfterSubmit (some [demoDRow]) mapPlanNoDescribe mapFactFull true
        true [demoPlanA] [demoFactMatch] = none ∧
    some [demoDRow] ≠ (none : Option (List DRow)) := by
  decide

/-- The four dropna cells of a Plan row are exactly its composite key's
cells. -/
theorem planRow_keyNotNull_key (r : PlanRow) :
    r.keyNotNull = MKey.allPresent r.key := rfl

/-- The four dropna cells of a Fact row are exactly its composite key's
cells. -/
theorem factRow_keyNotNull_key (r : FactRow) :
    r.keyNotNull = MKey.allPresent r.key := rfl

/-- For a fully present key, dropping null-key rows does not change which
row is the first with that key. -/
theorem planDropna_find? (plan : List PlanRow) (k : MKey)
    (hk : MKey.allPresent k = true) :
    (planDropna plan).find? (fun x => decide (x.key = k)) =
      plan.find? fun x => decide (x.key = k) := by
  unfold planDropna
  rw [find?_filterB]
  apply find?_congrB
  intro a _
  by_cases h : a.key = k
  · have hnn : PlanRow.keyNotNull a = true := by
      rw [planRow_keyNotNull_key, h]
      exact hk
    simp [h, hnn]
  · simp [h]

/-- Fact-side version of `planDropna_find?`. -/
theorem factDropna_find? (fact : List FactRow) (k : MKey)
    (hk : MKey.allPresent k = true) :
    (factDropna fact).find? (fun x => decide (x.key = k)) =
      fact.find? fun x => decide (x.key = k) := by
  unfold factDropna
  rw [find?_filterB]
  apply find?_congrB
  intro a _
  by_cases h : a.key = k
  · have hnn : FactRow.keyNotNull a = true := by
      rw [factRow_keyNotNull_key, h]
      exact hk
    simp [h, hnn]
  · simp [h]

/-- C10 (confirmed): with the remove-duplicates option on (its default),
each cleaned input side is a subsequence of its input in which every
composite key occurs at most once, and the row kept for a (fully present)
key is exactly the first row of the input bearing that key — all later rows
with the same key are discarded. -/
theorem remove_duplicates_keeps_first_per_key (plan : List PlanRow)
    (fact : List FactRow) (k : MKey) (hk : MKey.allPresent k = true) :
    ((cleanPlan true plan).map PlanRow.key).Nodup ∧
    ((cleanFact true fact).map FactRow.key).Nodup ∧
    List.Sublist (cleanPlan true plan) plan ∧
    List.Sublist (cleanFact true fact) fact ∧
    (cleanPlan true plan).countP (fun x => decide (x.key = k)) ≤ 1 ∧
    (cleanFact true fact).countP (fun x => decide (x.key = k)) ≤ 1 ∧
    (cleanPlan true plan).find? (fun x => decide (x.key = k)) =
      plan.find? (fun x => decide (x.key = k)) ∧
    (cleanFact true fact).find? (fun x => decide (x.key = k)) =
      fact.find? fun x => decide (x.key = k) := by
  have hp : cleanPlan true plan = dedupByKey PlanRow.key (planDropna plan) :=
    rfl
  have hf : cleanFact true fact = dedupByKey FactRow.key (factDropna fact) :=
    rfl
  have hpn := dedupGo_keys_nodup PlanRow.key (planDropna plan) []
  have hfn := dedupGo_keys_nodup FactRow.key (factDropna fact) []
  refine ⟨hp ▸ hpn, hf ▸ hfn, ?_, ?_, ?_, ?_, ?_, ?_⟩
  · exact hp ▸ ((dedupGo_sublist PlanRow.key (planDropna plan) []).trans
      (List.filter_sublist plan))
  · exact hf ▸ ((dedupGo_sublist FactRow.key (factDropna fact) []).trans
      (List.filter_sublist fact))
  · exact hp ▸ countP_key_le_one PlanRow.key _ hpn k
  · exact hf ▸ countP_key_le_one FactRow.key _ hfn k
  · rw [hp]
    rw [show dedupByKey PlanRow.key (planDropna plan) =
      dedupGo PlanRow.key [] (planDropna plan) from rfl]
    rw [dedupGo_find? PlanRow.key (planDropna plan) [] k
      (List.not_mem_nil k)]
    exact planDropna_find? plan k hk
  · rw [hf]
    rw [show dedupByKey FactRow.key (factDropna fact) =
      dedupGo FactRow.key [] (factDropna fact) from rfl]
    rw [dedupGo_find? FactRow.key (factDropna fact) [] k
      (List.not_mem_nil k)]
    exact factDropna_find? fact k hk

/-- C10 witness: of two Plan rows sharing a key, cleaning keeps exactly the
first. -/
theorem remove_duplicates_keeps_first_per_key_witness :
    (cleanPlan true [demoPlanA, demoPlanDupOfA]).find?
        (fun x => decide (x.key = demoPlanA.key)) =
      [demoPlanA, demoPlanDupOfA].find?
        (fun x => decide (x.key = demoPlanA.key)) :=
  (remove_duplicates_keeps_first_per_key [demoPlanA, demoPlanDupOfA] []
    demoPlanA.key (by decide)).2.2.2.2.2.2.1

/-- C9 (corrected): before the join each side keeps exactly the rows none of
whose four key cells (store, article, description, model) is missing —
`dropna` looks only for missing values, so empty or whitespace strings
survive and no trimming happens, while a missing description or model drops
the row even when store and article are present. -/
theorem dropna_keeps_exactly_nonnull_keys (plan : List PlanRow)
    (fact : List FactRow) (b : Bool) (r : PlanRow) (f : FactRow) :
    (r ∈ planDropna plan ↔ r ∈ plan ∧ r.magazin ≠ Val.vnull ∧
      r.ART ≠ Val.vnull ∧ r.Describe ≠ Val.vnull ∧ r.MOD ≠ Val.vnull) ∧
    (f ∈ factDropna fact ↔ f ∈ fact ∧ f.magazin ≠ Val.vnull ∧
      f.ART ≠ Val.vnull ∧ f.Describe ≠ Val.vnull ∧ f.MOD ≠ Val.vnull) ∧
    (r ∈ cleanPlan b plan → r ∈ planDropna plan) ∧
    (f ∈ cleanFact b fact → f ∈ factDropna fact) := by
  refine ⟨?_, ?_, ?_, ?_⟩
  · simp [planDropna, List.mem_filter, PlanRow.keyNotNull, and_assoc]
  · simp [factDropna, List.mem_filter, FactRow.keyNotNull, and_assoc]
  · cases b with
    | false => exact fun h => h
    | true =>
      intro h
      exact (dedupGo_sublist PlanRow.key (planDropna plan) []).subset h
  · cases b with
    | false => exact fun h => h
    | true =>
      intro h
      exact (dedupGo_sublist FactRow.key (factDropna fact) []).subset h

/-- C9 witness: a fully keyed row passes the Plan-side dropna. -/
theorem dropna_keeps_exactly_nonnull_keys_witness :
    demoPlanA ∈ planDropna [demoPlanA] :=
  ((dropna_keeps_exactly_nonnull_keys [demoPlanA] [demoFactMatch] true
    demoPlanA demoFactMatch).1).mpr (by decide)

/-- C9 counterexample: a row with non-empty store and article but a missing
description is dropped (the claim says it is kept), while a row whose store
is a whitespace-only string is kept (the claim says it is dropped after
trimming). -/
theorem dropna_divergence_from_claim :
    cleanPlan true [demoPlanNullDescribe] = [] ∧
    demoPlanNullDescribe.magazin = Val.vstr "S5" ∧
    demoPlanNullDescribe.ART = Val.vstr "A1" ∧
    cleanPlan true [demoPlanWsStore] = [demoPlanWsStore] ∧
    (demoPlanWsStore.magazin = Val.vstr " ") := by
  decide

/-- C8 (corrected): normalization never rewrites a cell — every row that
survives cleaning is a verbatim row of the input, so a numeric store code
stays numeric and the join compares raw cell values, not strings. -/
theorem normalization_preserves_row_values (b : Bool) (plan : List PlanRow)
    (fact : List FactRow) (r : PlanRow) (hr : r ∈ cleanPlan b plan)
    (f : FactRow) (hf : f ∈ cleanFact b fact) : r ∈ plan ∧ f ∈ fact := by
  constructor
  · cases b with
    | false => exact (List.filter_sublist plan).subset hr
    | true =>
      exact ((dedupGo_sublist PlanRow.key (planDropna plan) []).trans
        (List.filter_sublist plan)).subset hr
  · cases b with
    | false => exact (List.filter_sublist fact).subset hf
    | true =>
      exact ((dedupGo_sublist FactRow.key (factDropna fact) []).trans
        (List.filter_sublist fact)).subset hf

/-- C8 witness: the numerically keyed row survives cleaning unchanged. -/
theorem normalization_preserves_row_values_witness :
    demoPlanNumStore ∈ [demoPlanNumStore] :=
  (normalization_preserves_row_values true [demoPlanNumStore]
    [demoFactMatch] demoPlanNumStore (by decide) demoFactMatch
    (by decide)).1

/-- C8 counterexample: a store cell holding the number 101 passes through
normalization still numeric — it is never coerced to a string. -/
theorem numeric_store_not_coerced :
    cleanPlan true [demoPlanNumStore] = [demoPlanNumStore] ∧
    Val.isStr ((demoPlanNumStore).magazin) = false ∧
    demoPlanNumStore.magazin = Val.vnum 101 := by
  decide

/-- Float comparison on summary cells is total. -/
theorem SPct.leB_total (a b : SPct) : a.leB b = true ∨ b.leB a = true := by
  cases a with
  | num qa =>
    cases b with
    | num qb =>
      rcases le_total qa qb with h | h
      · exact Or.inl (by simp [SPct.leB, h])
      · exact Or.inr (by simp [SPct.leB, h])
    | inf => exact Or.inl rfl
  | inf => cases b <;> simp [SPct.leB]

/-- Float comparison on summary cells is transitive. -/
theorem SPct.leB_trans {a b c : SPct} (h1 : a.leB b = true)
    (h2 : b.leB c = true) : a.leB c = true := by
  cases c with
  | inf => cases a <;> rfl
  | num qc =>
    cases b with
    | inf => exact absurd h2 (by simp [SPct.leB])
    | num qb =>
      cases a with
      | inf => exact absurd h1 (by simp [SPct.leB])
      | num qa =>
        simp only [SPct.leB, decide_eq_true_eq] at h1 h2 ⊢
        exact le_trans h1 h2

/-- Inserting into a descending run yields a permutation of pushing in
front. -/
theorem perm_insertByDesc (f : α → SPct) (x : α) (l : List α) :
    (insertByDesc f x l).Perm (x :: l) := by
  induction l with
  | nil => exact List.Perm.refl _
  | cons y ys ih =>
    by_cases h : SPct.leB (f y) (f x) = true
    · simp only [insertByDesc, if_pos h]
      exact List.Perm.refl _
    · simp only [insertByDesc, if_neg h]
      exact (ih.cons y).trans (List.Perm.swap x y ys)

/-- Inserting into a descending run keeps it descending. -/
theorem pairwise_insertByDesc (f : α → SPct) (x : α) (l : List α)
    (h : l.Pairwise fun a b => SPct.leB (f b) (f a) = true) :
    (insertByDesc f x l).Pairwise fun a b => SPct.leB (f b) (f a) = true := by
  induction l with
  | nil => simp [insertByDesc]
  | cons y ys ih =>
    rcases List.pairwise_cons.mp h with ⟨hy, hys⟩
    by_cases hle : SPct.leB (f y) (f x) = true
    · simp only [insertByDesc, if_pos hle]
      refine List.pairwise_cons.mpr ⟨?_, h⟩
      intro z hz
      rcases List.mem_cons.mp hz with h1 | h1
      · exact h1 ▸ hle
      · exact SPct.leB_trans (hy z h1) hle
    · simp only [insertByDesc, if_neg hle]
      refine List.pairwise_cons.mpr ⟨?_, ih hys⟩
      intro z hz
      have hz2 := (perm_insertByDesc f x ys).mem_iff.mp hz
      rcases List.mem_cons.mp hz2 with h1 | h1
      · rcases SPct.leB_total (f y) (f z) with h2 | h2
        · rw [h1] at h2
          exact absurd h2 hle
        · exact h2
      · exact hy z h1

/-- The descending sort is a permutation of its input. -/
theorem sortByDesc_perm (f : α → SPct) (l : List α) :
    (sortByDesc f l).Perm l := by
  induction l with
  | nil => exact List.Perm.refl _
  | cons x xs ih =>
    exact (perm_insertByDesc f x (sortByDesc f xs)).trans (ih.cons x)

/-- The descending sort's output is descending in the key. -/
theorem sortByDesc_pairwise (f : α → SPct) (l : List α) :
    (sortByDesc f l).Pairwise fun a b => SPct.leB (f b) (f a) = true := by
  induction l with
  | nil => simp [sortByDesc]
  | cons x xs ih => exact pairwise_insertByDesc f x (sortByDesc f xs) ih

/-- The summary percentage rule never yields a negative value. -/
theorem summaryPct_nonneg (p d : ℚ) : (summaryPct p d).nonneg = true := by
  unfold summaryPct
  by_cases hp : 0 < p
  · rw [if_pos hp]
    simp only [SPct.nonneg, decide_eq_true_eq]
    have : (0 : ℚ) ≤ |d| / p := div_nonneg (abs_nonneg d) (le_of_lt hp)
    positivity
  · rw [if_neg hp]
    by_cases hd : d ≠ 0
    · rw [if_pos hd]
      rfl
    · rw [if_neg hd]
      rfl

/-- C6 (corrected): the problem-store table holds exactly the summary rows
whose unit-deviation percentage exceeds the threshold (that percentage is
computed with an absolute numerator, so it is never negative and equals its
own absolute value), and it is ordered descending by the chosen sort key's
signed value — not by its absolute value. -/
theorem problem_stores_filter_and_sort (summary : List StoreSummary)
    (th : ℚ) (k : SortKey) (rows : List DRow) (s : StoreSummary)
    (hs : s ∈ storeSummary rows) :
    (problemStores summary th k).Perm
      (summary.filter fun x => pctGtB x.Otkl_pct_sht th) ∧
    (∀ x, x ∈ problemStores summary th k ↔
      x ∈ summary ∧ pctGtB x.Otkl_pct_sht th = true) ∧
    (problemStores summary th k).Pairwise
      (fun a b => SPct.leB (sortVal k b) (sortVal k a) = true) ∧
    SPct.nonneg s.Otkl_pct_sht = true ∧
    SPct.nonneg s.Otkl_pct_grn = true := by
  have hperm : (problemStores summary th k).Perm
      (summary.filter fun x => pctGtB x.Otkl_pct_sht th) :=
    sortByDesc_perm (sortVal k) _
  refine ⟨hperm, ?_, sortByDesc_pairwise (sortVal k) _, ?_, ?_⟩
  · intro x
    rw [hperm.mem_iff, List.mem_filter]
  · rcases List.mem_map.mp hs with ⟨kk, _, hkk⟩
    rw [← hkk]
    exact summaryPct_nonneg _ _
  · rcases List.mem_map.mp hs with ⟨kk, _, hkk⟩
    rw [← hkk]
    exact summaryPct_nonneg _ _

/-- C6 witness: both demo rows exceed a 10 percent threshold and the
characterisation applies to them. -/
theorem problem_stores_filter_and_sort_witness :
    demoSummaryA ∈ problemStores [demoSummaryA, demoSummaryB] 10
      SortKey.sht ↔
    demoSummaryA ∈ [demoSummaryA, demoSummaryB] ∧
      pctGtB demoSummaryA.Otkl_pct_sht 10 = true :=
  (problem_stores_filter_and_sort [demoSummaryA, demoSummaryB] 10
    SortKey.sht [demoDRow] (mkStoreSummary [demoDRow] (Val.vstr "S"))
    (by
      have hg : storeGroups [demoDRow] = [Val.vstr "S"] := by decide
      unfold storeSummary
      rw [hg]
      exact List.mem_singleton.mpr rfl)).2.1 demoSummaryA

/-- C6 counterexample: sorting by the unit-deviation key puts the +5 row
before the -10 row — descending by signed value, not by absolute value as
the claim states (|-10| > |5|). -/
theorem problem_stores_sorts_signed_not_abs :
    (problemStores [demoSummaryA, demoSummaryB] 10 SortKey.sht).map
        (fun s => s.Otkl_sht) = [5, -10] ∧
    ¬(|(-10 : ℚ)| ≤ |(5 : ℚ)|) := by
  constructor
  · decide
  · norm_num

/-- Splitting a sum along a filter and its complement. -/
theorem sum_filter_split (l : List α) (p : α → Bool) (f : α → ℚ) :
    ((l.filter p).map f).sum + ((l.filter fun a => !(p a)).map f).sum =
      (l.map f).sum := by
  induction l with
  | nil => simp
  | cons a l ih =>
    by_cases hp : p a = true
    · have h1 : List.filter p (a :: l) = a :: List.filter p l := by
        simp [List.filter_cons, hp]
      have h2 : List.filter (fun x => !(p x)) (a :: l) =
          List.filter (fun x => !(p x)) l := by
        simp [List.filter_cons, hp]
      rw [h1, h2]
      simp only [List.map_cons, List.sum_cons]
      rw [← ih]
      ring
    · have hp2 : p a = false := by simpa using hp
      have h1 : List.filter p (a :: l) = List.filter p l := by
        simp [List.filter_cons, hp2]
      have h2 : List.filter (fun x => !(p x)) (a :: l) =
          a :: List.filter (fun x => !(p x)) l := by
        simp [List.filter_cons, hp2]
      rw [h1, h2]
      simp only [List.map_cons, List.sum_cons]
      rw [← ih]
      ring

/-- A filter by a stronger predicate ignores a preceding filter by a weaker
one. -/
theorem filter_filter_of_imp (l : List α) (p q : α → Bool)
    (h : ∀ a, p a = true → q a = true) :
    (l.filter q).filter p = l.filter p := by
  induction l with
  | nil => rfl
  | cons a l ih =>
    by_cases hq : q a = true
    · by_cases hp : p a = true
      · simp [List.filter_cons, hq, hp, ih]
      · have hp2 : p a = false := by simpa using hp
        simp [List.filter_cons, hq, hp2, ih]
    · have hq2 : q a = false := by simpa using hq
      have hp2 : p a = false := by
        cases hpa : p a with
        | false => rfl
        | true => exact absurd (h a hpa) (by simp [hq2])
      simp [List.filter_cons, hq2, hp2, ih]

/-- Summing group sums over a duplicate-free covering key list equals the
total sum. -/
theorem sum_over_groups [DecidableEq κ] (key : α → κ) (f : α → ℚ) :
    ∀ (keys : List κ) (rows : List α), keys.Nodup →
      (∀ r ∈ rows, key r ∈ keys) →
      (keys.map fun k =>
        ((rows.filter fun r => decide (key r = k)).map f).sum).sum =
        (rows.map f).sum
  | [], rows, _, hcov => by
    cases rows with
    | nil => simp
    | cons r rs =>
      exact absurd (hcov r (List.mem_cons_self r rs)) (List.not_mem_nil _)
  | k :: ks, rows, hnd, hcov => by
    rcases List.nodup_cons.mp hnd with ⟨hk, hks⟩
    have hrw : ∀ k2 ∈ ks,
        ((rows.filter fun r => decide (key r = k2)).map f).sum =
          (((rows.filter fun r => !(decide (key r = k))).filter
            fun r => decide (key r = k2)).map f).sum := by
      intro k2 hk2
      rw [filter_filter_of_imp]
      intro a ha
      simp only [decide_eq_true_eq] at ha
      simp only [Bool.not_eq_true', decide_eq_false_iff_not]
      intro hak
      have hkk : k2 = k := by
        rw [← ha]
        exact hak
      exact hk (hkk ▸ hk2)
    have hcov2 : ∀ r ∈ rows.filter fun r => !(decide (key r = k)),
        key r ∈ ks := by
      intro r hr
      rcases List.mem_filter.mp hr with ⟨hr1, hr2⟩
      have := hcov r hr1
      rcases List.mem_cons.mp this with h1 | h1
      · exact absurd h1 (by simpa using hr2)
      · exact h1
    calc ((k :: ks).map fun k2 =>
          ((rows.filter fun r => decide (key r = k2)).map f).sum).sum
        = ((rows.filter fun r => decide (key r = k)).map f).sum +
          (ks.map fun k2 =>
            ((rows.filter fun r => decide (key r = k2)).map f).sum).sum := by
          simp
      _ = ((rows.filter fun r => decide (key r = k)).map f).sum +
          (ks.map fun k2 =>
            (((rows.filter fun r => !(decide (key r = k))).filter
              fun r => decide (key r = k2)).map f).sum).sum := by
          rw [List.map_congr_left hrw]
      _ = ((rows.filter fun r => decide (key r = k)).map f).sum +
          ((rows.filter fun r => !(decide (key r = k))).map f).sum := by
          rw [sum_over_groups key f ks _ hks hcov2]
      _ = (rows.map f).sum := sum_filter_split rows _ f

/-- The store keys of the summary are exactly the distinct non-null store
values. -/
theorem storeSummary_map_magazin (rows : List DRow) :
    ((storeSummary rows).map fun x => x.magazin) = storeGroups rows := by
  unfold storeSummary
  rw [List.map_map]
  have : ((fun x : StoreSummary => x.magazin) ∘ mkStoreSummary rows) =
      fun k => k := rfl
  rw [this, List.map_id']

/-- Conservation of any summed column: the summary rows' values of a summed
field add up to that field's sum over all rows with a non-null store. -/
theorem storeSummary_conservation (rows : List DRow) (F : StoreSummary → ℚ)
    (g : DRow → Val)
    (hF : ∀ k, F (mkStoreSummary rows k) =
      sumField g (rows.filter fun r => decide (r.magazin = k))) :
    ((storeSummary rows).map F).sum =
      sumField g (rows.filter fun r => decide (r.magazin ≠ Val.vnull)) := by
  unfold storeSummary
  rw [List.map_map]
  have h1 : (F ∘ mkStoreSummary rows) = fun k =>
      ((rows.filter fun r => decide (r.magazin = k)).map
        fun r => (g r).orZero).sum := by
    funext k
    exact hF k
  rw [h1]
  have hnd : (storeGroups rows).Nodup := by
    have := dedupGo_keys_nodup (id : Val → Val)
      ((rows.map fun r => r.magazin).filter fun v =>
        decide (v ≠ Val.vnull)) []
    rwa [List.map_id] at this
  have hsub : ∀ k ∈ storeGroups rows, k ≠ Val.vnull := by
    intro k hk
    have hmem : k ∈ (rows.map fun r => r.magazin).filter fun v =>
        decide (v ≠ Val.vnull) :=
      (dedupGo_sublist (id : Val → Val) _ []).subset hk
    simpa using (List.mem_filter.mp hmem).2
  have hrw : ∀ k ∈ storeGroups rows,
      ((rows.filter fun r => decide (r.magazin = k)).map
        fun r => (g r).orZero).sum =
        (((rows.filter fun r => decide (r.magazin ≠ Val.vnull)).filter
          fun r => decide (r.magazin = k)).map fun r => (g r).orZero).sum := by
    intro k hk
    rw [filter_filter_of_imp]
    intro a ha
    simp only [decide_eq_true_eq] at ha ⊢
    rw [ha]
    exact hsub k hk
  rw [List.map_congr_left hrw]
  have hcov : ∀ r ∈ rows.filter fun r => decide (r.magazin ≠ Val.vnull),
      r.magazin ∈ storeGroups rows := by
    intro r hr
    rcases List.mem_filter.mp hr with ⟨hr1, hr2⟩
    have hmem : r.magazin ∈ (rows.map fun r => r.magazin).filter fun v =>
        decide (v ≠ Val.vnull) :=
      List.mem_filter.mpr ⟨List.mem_map_of_mem _ hr1, hr2⟩
    have := dedupGo_covers (id : Val → Val) _ [] r.magazin hmem
      (List.not_mem_nil _)
    rwa [List.map_id] at this
  rw [sum_over_groups (fun r : DRow => r.magazin) (fun r => (g r).orZero)
    (storeGroups rows) _ hnd hcov]
  rfl

/-- C5 (corrected): every summary row's four base columns are the exact sums
of those columns over precisely its group's reconciled rows, its deviation
columns are differences of those sums, nothing is lost or double-counted
across groups, and its percentage columns are recomputed from the summed
values — but by the absolute-numerator rule, not the signed row-level
rule. -/
theorem store_summary_aggregation (rows : List DRow) (s : StoreSummary)
    (hs : s ∈ storeSummary rows) :
    ((storeSummary rows).map fun x => x.magazin).Nodup ∧
    (∀ r ∈ rows, r.magazin ≠ Val.vnull →
      r.magazin ∈ (storeSummary rows).map fun x => x.magazin) ∧
    s.Plan_STUKI = sumField (fun r => r.Plan_STUKI)
      (rows.filter fun r => decide (r.magazin = s.magazin)) ∧
    s.Fact_STUKI = sumField (fun r => r.Fact_STUKI)
      (rows.filter fun r => decide (r.magazin = s.magazin)) ∧
    s.Plan_GRN = sumField (fun r => r.Plan_GRN)
      (rows.filter fun r => decide (r.magazin = s.magazin)) ∧
    s.Fact_GRN = sumField (fun r => r.Fact_GRN)
      (rows.filter fun r => decide (r.magazin = s.magazin)) ∧
    s.Otkl_sht = s.Fact_STUKI - s.Plan_STUKI ∧
    s.Otkl_grn = s.Fact_GRN - s.Plan_GRN ∧
    s.Otkl_pct_sht = summaryPct s.Plan_STUKI s.Otkl_sht ∧
    s.Otkl_pct_grn = summaryPct s.Plan_GRN s.Otkl_grn ∧
    ((storeSummary rows).map fun x => x.Plan_STUKI).sum =
      sumField (fun r => r.Plan_STUKI)
        (rows.filter fun r => decide (r.magazin ≠ Val.vnull)) ∧
    ((storeSummary rows).map fun x => x.Fact_STUKI).sum =
      sumField (fun r => r.Fact_STUKI)
        (rows.filter fun r => decide (r.magazin ≠ Val.vnull)) ∧
    ((storeSummary rows).map fun x => x.Plan_GRN).sum =
      sumField (fun r => r.Plan_GRN)
        (rows.filter fun r => decide (r.magazin ≠ Val.vnull)) ∧
    ((storeSummary rows).map fun x => x.Fact_GRN).sum =
      sumField (fun r => r.Fact_GRN)
        (rows.filter fun r => decide (r.magazin ≠ Val.vnull)) := by
  have hmag := storeSummary_map_magazin rows
  rcases List.mem_map.mp hs with ⟨k, hk, hsk⟩
  subst hsk
  refine ⟨?_, ?_, rfl, rfl, rfl, rfl, rfl, rfl, rfl, rfl, ?_, ?_, ?_, ?_⟩
  · rw [hmag]
    have := dedupGo_keys_nodup (id : Val → Val)
      ((rows.map fun r => r.magazin).filter fun v =>
        decide (v ≠ Val.vnull)) []
    rwa [List.map_id] at this
  · intro r hr hnn
    rw [hmag]
    have hmem : r.magazin ∈ (rows.map fun r => r.magazin).filter fun v =>
        decide (v ≠ Val.vnull) :=
      List.mem_filter.mpr ⟨List.mem_map_of_mem _ hr, by simpa using hnn⟩
    have := dedupGo_covers (id : Val → Val) _ [] r.magazin hmem
      (List.not_mem_nil _)
    rwa [List.map_id] at this
  · exact storeSummary_conservation rows _ _ fun k2 => rfl
  · exact storeSummary_conservation rows _ _ fun k2 => rfl
  · exact storeSummary_conservation rows _ _ fun k2 => rfl
  · exact storeSummary_conservation rows _ _ fun k2 => rfl

/-- C5 witness: the demo summary row's percentage is recomputed from its
summed values. -/
theorem store_summary_aggregation_witness :
    (mkStoreSummary [demoDRow] (Val.vstr "S")).Otkl_pct_sht =
      summaryPct (mkStoreSummary [demoDRow] (Val.vstr "S")).Plan_STUKI
        (mkStoreSummary [demoDRow] (Val.vstr "S")).Otkl_sht :=
  (store_summary_aggregation [demoDRow]
    (mkStoreSummary [demoDRow] (Val.vstr "S"))
    (by
      have hg : storeGroups [demoDRow] = [Val.vstr "S"] := by decide
      unfold storeSummary
      rw [hg]
      exact List.mem_singleton.mpr rfl)).2.2.2.2.2.2.2.2.1

/-- C5 counterexample: for a group with summed plan 10 and summed fact 7 the
summary stores percentage +30 (absolute numerator), while the row-level
derivation rule applied to the same summed values yields -30 — the summary
does not reuse the row-level rule. -/
theorem store_summary_pct_not_row_rule :
    (storeSummary [demoDRow]).map (fun s => s.Otkl_pct_sht) =
        [SPct.num 30] ∧
    specRowRulePct 10 (7 - 10) = SPct.num (-30) ∧
    SPct.num (30 : ℚ) ≠ SPct.num (-30 : ℚ) := by
  refine ⟨?_, ?_, ?_⟩
  · have hg : storeGroups [demoDRow] = [Val.vstr "S"] := by decide
    unfold storeSummary
    rw [hg]
    simp only [List.map_cons, List.map_nil, mkStoreSummary, sumField,
      Val.orZero, demoDRow]
    norm_num [summaryPct]
  · unfold specRowRulePct
    norm_num
  · intro h
    have := SPct.num.inj h
    norm_num at this

/-- A plan-only merged row keeps the Plan row's key. -/
theorem planOnlyRow_key (p : PlanRow) : (planOnlyRow p).key = p.key := rfl

/-- A combined merged row keeps the Plan row's key. -/
theorem combineRow_key (p : PlanRow) (f : FactRow) :
    (combineRow p f).key = p.key := rfl

/-- A fact-only merged row keeps the Fact row's key. -/
theorem factOnlyRow_key (f : FactRow) : (factOnlyRow f).key = f.key := rfl

/-- Deriving the numeric columns leaves the key columns untouched. -/
theorem deriveRow_key (fz : Bool) (m : MRow) :
    (deriveRow fz m).key = m.key := rfl

/-- Every row of a Plan row's merge block bears that Plan row's key. -/
theorem mergeBlock_all_key (fact : List FactRow) (p : PlanRow) :
    ∀ m ∈ mergeBlock fact p, m.key = p.key := by
  intro m hm
  simp only [mergeBlock] at hm
  by_cases he : ((fact.filter fun f => decide (f.key = p.key)).isEmpty) = true
  · rw [if_pos he] at hm
    rw [List.mem_singleton.mp hm]
    exact planOnlyRow_key p
  · rw [if_neg he] at hm
    rcases List.mem_map.mp hm with ⟨f, _, hmf⟩
    rw [← hmf]
    exact combineRow_key p f

/-- The size of a Plan row's merge block: one row when no Fact row matches,
otherwise one row per matching Fact row. -/
theorem mergeBlock_length (fact : List FactRow) (p : PlanRow) :
    (mergeBlock fact p).length =
      if (fact.countP fun f => decide (f.key = p.key)) = 0 then 1
      else fact.countP fun f => decide (f.key = p.key) := by
  simp only [mergeBlock]
  rw [List.countP_eq_length_filter]
  by_cases he : ((fact.filter fun f => decide (f.key = p.key)).isEmpty) = true
  · rw [if_pos he]
    have hnil : (fact.filter fun f => decide (f.key = p.key)) = [] :=
      List.isEmpty_iff.mp he
    simp [hnil]
  · rw [if_neg he]
    have hne : (fact.filter fun f => decide (f.key = p.key)) ≠ [] := by
      intro h
      exact he (by simp [h])
    have hlen : (fact.filter fun f => decide (f.key = p.key)).length ≠ 0 := by
      simpa [List.length_eq_zero] using hne
    simp [List.length_map, hlen]

/-- Counting rows of a given key in a list whose rows all bear one key. -/
theorem countP_key_of_all (L : List MRow) (k0 : MKey)
    (h : ∀ m ∈ L, m.key = k0) (k : MKey) :
    L.countP (fun m => decide (m.key = k)) = if k0 = k then L.length else 0 := by
  induction L with
  | nil => simp
  | cons m L ih =>
    have hm := h m (List.mem_cons_self m L)
    have hL := ih fun x hx => h x (List.mem_cons_of_mem m hx)
    by_cases hk : k0 = k
    · simp [List.countP_cons, hm, hk, hL]
    · simp [List.countP_cons, hm, hk, hL]

/-- Counting rows of a given key in the left part of the outer merge. -/
theorem countP_outerMergeL (fact : List FactRow) :
    ∀ (plan : List PlanRow) (k : MKey), ((plan.map PlanRow.key).Nodup) →
      (outerMergeL fact plan).countP (fun m => decide (m.key = k)) =
        if k ∈ plan.map PlanRow.key then
          (if (fact.countP fun f => decide (f.key = k)) = 0 then 1
            else fact.countP fun f => decide (f.key = k))
        else 0
  | [], k, _ => by simp [outerMergeL]
  | p :: ps, k, hnd => by
    have hnd2 : (p.key :: ps.map PlanRow.key).Nodup := by simpa using hnd
    rcases List.nodup_cons.mp hnd2 with ⟨hp, hps⟩
    simp only [outerMergeL, List.countP_append]
    rw [countP_key_of_all (mergeBlock fact p) p.key
      (mergeBlock_all_key fact p) k]
    by_cases hpk : p.key = k
    · subst hpk
      rw [if_pos rfl, countP_outerMergeL fact ps p.key hps, if_neg hp,
        add_zero, mergeBlock_length,
        if_pos (List.mem_map_of_mem PlanRow.key (List.mem_cons_self p ps))]
    · rw [if_neg hpk, countP_outerMergeL fact ps k hps]
      have hcons : k ∈ (p :: ps).map PlanRow.key ↔
          k ∈ ps.map PlanRow.key := by
        simp only [List.map_cons, List.mem_cons]
        constructor
        · intro h
          rcases h with h | h
          · exact absurd h.symm hpk
          · exact h
        · exact Or.inr
      by_cases hmem : k ∈ ps.map PlanRow.key
      · rw [if_pos hmem, if_pos (hcons.mpr hmem), zero_add]
      · rw [if_neg hmem, if_neg (fun h => hmem (hcons.mp h)), zero_add]

/-- Counting rows of a given key in the right part of the outer merge. -/
theorem countP_outerMergeR (plan : List PlanRow) (fact : List FactRow)
    (k : MKey) :
    (outerMergeR plan fact).countP (fun m => decide (m.key = k)) =
      if k ∈ plan.map PlanRow.key then 0
      else fact.countP fun f => decide (f.key = k) := by
  unfold outerMergeR
  rw [countP_mapB, countP_filterB]
  by_cases hmem : k ∈ plan.map PlanRow.key
  · rw [if_pos hmem]
    apply List.countP_eq_zero.mpr
    intro f _
    simp only [factOnlyRow_key, Bool.and_eq_true, Bool.not_eq_true',
      decide_eq_true_eq, not_and]
    intro hno hkey
    rcases List.mem_map.mp hmem with ⟨p, hp, hpk⟩
    have hany : (plan.any fun p => decide (p.key = f.key)) = true := by
      rw [List.any_eq_true]
      exact ⟨p, hp, by simp [hpk, hkey]⟩
    rw [hany] at hno
    simp at hno
  · rw [if_neg hmem]
    apply countP_congrB
    intro f _
    by_cases hfk : f.key = k
    · have hno2 : (plan.any fun p => decide (p.key = k)) = false := by
        rw [List.any_eq_false]
        intro x hx
        simp only [decide_eq_true_eq]
        intro hxk
        exact hmem (hxk ▸ List.mem_map_of_mem PlanRow.key hx)
      simp [factOnlyRow_key, hfk, hno2]
    · simp [factOnlyRow_key, hfk]

/-- Every merged row of the left part holds some Plan row's block. -/
theorem mem_outerMergeL_shape (fact : List FactRow) :
    ∀ (plan : List PlanRow) (m : MRow), m ∈ outerMergeL fact plan →
      ∃ p ∈ plan, m ∈ mergeBlock fact p
  | [], m, hm => absurd hm (List.not_mem_nil m)
  | p :: ps, m, hm => by
    rcases List.mem_append.mp hm with h | h
    · exact ⟨p, List.mem_cons_self p ps, h⟩
    · rcases mem_outerMergeL_shape fact ps m h with ⟨p2, hp2, hb⟩
      exact ⟨p2, List.mem_cons_of_mem p hp2, hb⟩

/-- Every merged row of the left part bears some Plan row's key. -/
theorem mem_outerMergeL_key (fact : List FactRow) (plan : List PlanRow)
    (m : MRow) (hm : m ∈ outerMergeL fact plan) :
    m.key ∈ plan.map PlanRow.key := by
  rcases mem_outerMergeL_shape fact plan m hm with ⟨p, hp, hb⟩
  rw [mergeBlock_all_key fact p m hb]
  exact List.mem_map_of_mem PlanRow.key hp

/-- A merged row whose key no Plan row bears has all Plan-side payload
columns missing. -/
theorem mem_outerMerge_planNull (plan : List PlanRow) (fact : List FactRow)
    (m : MRow) (hm : m ∈ outerMerge plan fact)
    (hk : m.key ∉ plan.map PlanRow.key) :
    m.Plan_STUKI = Val.vnull ∧ m.Plan_GRN = Val.vnull ∧
      m.Price = Val.vnull := by
  rcases List.mem_append.mp hm with h | h
  · exact absurd (mem_outerMergeL_key fact plan m h) hk
  · rcases List.mem_map.mp h with ⟨f, _, hmf⟩
    rw [← hmf]
    exact ⟨rfl, rfl, rfl⟩

/-- A merged row whose key no Fact row bears has a missing Fact quantity. -/
theorem mem_outerMerge_factNull (plan : List PlanRow) (fact : List FactRow)
    (m : MRow) (hm : m ∈ outerMerge plan fact)
    (hk : m.key ∉ fact.map FactRow.key) : m.Fact_STUKI = Val.vnull := by
  rcases List.mem_append.mp hm with h | h
  · rcases mem_outerMergeL_shape fact plan m h with ⟨p, _, hb⟩
    have hkey := mergeBlock_all_key fact p m hb
    simp only [mergeBlock] at hb
    by_cases he : ((fact.filter fun f => decide (f.key = p.key)).isEmpty) =
        true
    · rw [if_pos he] at hb
      rw [List.mem_singleton.mp hb]
      rfl
    · rw [if_neg he] at hb
      rcases List.mem_map.mp hb with ⟨f, hf, hmf⟩
      rcases List.mem_filter.mp hf with ⟨hf1, hf2⟩
      have hfk : f.key = p.key := by simpa using hf2
      exact absurd ((hkey.trans hfk.symm) ▸
        List.mem_map_of_mem FactRow.key hf1) hk
  · rcases List.mem_map.mp h with ⟨f, hf, hmf⟩
    rcases List.mem_filter.mp hf with ⟨hf1, _⟩
    have hmk : m.key = f.key := by
      rw [← hmf]
      exact factOnlyRow_key f
    exact absurd (hmk ▸ List.mem_map_of_mem FactRow.key hf1) hk

/-- Numeric processing with zero-filling always produces a number. -/
theorem numFill_true_num (v : Val) : ∃ q : ℚ, v.numFill true = Val.vnum q := by
  cases v with
  | vnum q => exact ⟨q, rfl⟩
  | vnull => exact ⟨0, rfl⟩
  | vstr s =>
    simp only [Val.numFill, Val.toNumeric, if_true]
    cases s.toInt? with
    | none => exact ⟨0, rfl⟩
    | some n => exact ⟨n, rfl⟩

/-- C1 (corrected): with both options at their defaults, reconciliation is a
full outer join on the quadruple key (store, product_id, description,
model): every quadruple key of either cleaned side appears in exactly one
reconciled row; a key absent from the Fact side yields fact_qty = 0 and a
key absent from the Plan side yields plan_qty = plan_amount = 0. -/
theorem join_totality_on_quadruple_key (plan : List PlanRow)
    (fact : List FactRow) (k : MKey)
    (hk : k ∈ (cleanPlan true plan).map PlanRow.key ∨
      k ∈ (cleanFact true fact).map FactRow.key) :
    (processData true true plan fact).countP
      (fun r => decide (r.key = k)) = 1 ∧
    (k ∉ (cleanFact true fact).map FactRow.key →
      ∀ r ∈ processData true true plan fact, r.key = k →
        r.Fact_STUKI = Val.vnum 0) ∧
    (k ∉ (cleanPlan true plan).map PlanRow.key →
      ∀ r ∈ processData true true plan fact, r.key = k →
        r.Plan_STUKI = Val.vnum 0 ∧ r.Plan_GRN = Val.vnum 0) := by
  have hNP : ((cleanPlan true plan).map PlanRow.key).Nodup :=
    dedupGo_keys_nodup PlanRow.key (planDropna plan) []
  have hNF : ((cleanFact true fact).map FactRow.key).Nodup :=
    dedupGo_keys_nodup FactRow.key (factDropna fact) []
  refine ⟨?_, ?_, ?_⟩
  · have hmap : (processData true true plan fact).countP
        (fun r => decide (r.key = k)) =
        (outerMerge (cleanPlan true plan) (cleanFact true fact)).countP
          (fun m => decide (m.key = k)) := by
      unfold processData
      rw [countP_mapB]
      apply countP_congrB
      intro m _
      rfl
    rw [hmap]
    unfold outerMerge
    rw [List.countP_append,
      countP_outerMergeL (cleanFact true fact) (cleanPlan true plan) k hNP,
      countP_outerMergeR (cleanPlan true plan) (cleanFact true fact) k]
    have hle := countP_key_le_one FactRow.key (cleanFact true fact) hNF k
    by_cases hkP : k ∈ (cleanPlan true plan).map PlanRow.key
    · rw [if_pos hkP, if_pos hkP, add_zero]
      by_cases hfc : ((cleanFact true fact).countP
          fun f => decide (f.key = k)) = 0
      · rw [if_pos hfc]
      · rw [if_neg hfc]
        omega
    · rcases hk with h | h
      · exact absurd h hkP
      · rw [if_neg hkP, if_neg hkP, zero_add]
        have hge := countP_key_pos FactRow.key (cleanFact true fact) h
        omega
  · intro hkF r hr hrk
    rcases List.mem_map.mp hr with ⟨m, hm, hrm⟩
    have hmk : m.key = k := by
      rw [← hrm, deriveRow_key] at hrk
      exact hrk
    have hnull := mem_outerMerge_factNull (cleanPlan true plan)
      (cleanFact true fact) m hm (by rw [hmk]; exact hkF)
    rw [← hrm]
    show Val.numFill true m.Fact_STUKI = Val.vnum 0
    rw [hnull]
    rfl
  · intro hkP r hr hrk
    rcases List.mem_map.mp hr with ⟨m, hm, hrm⟩
    have hmk : m.key = k := by
      rw [← hrm, deriveRow_key] at hrk
      exact hrk
    obtain ⟨h1, h2, _⟩ := mem_outerMerge_planNull (cleanPlan true plan)
      (cleanFact true fact) m hm (by rw [hmk]; exact hkP)
    rw [← hrm]
    constructor
    · show Val.numFill true m.Plan_STUKI = Val.vnum 0
      rw [h1]
      rfl
    · show Val.numFill true m.Plan_GRN = Val.vnum 0
      rw [h2]
      rfl

/-- C1 witness: a matched key appears exactly once in the reconciled
table. -/
theorem join_totality_on_quadruple_key_witness :
    (processData true true [demoPlanA] [demoFactMatch]).countP
      (fun r => decide (r.key = demoPlanA.key)) = 1 :=
  (join_totality_on_quadruple_key [demoPlanA] [demoFactMatch] demoPlanA.key
    (Or.inl (by decide))).1

/-- C1 counterexample: two canonical single-row tables that share the
(store, product_id) pair but differ in description and model reconcile into
TWO rows bearing that pair, because the merge key is the quadruple, not the
pair; and with the fill-zeros option off a Plan-only row keeps a missing
(not zero) fact quantity. -/
theorem pair_key_join_not_unique :
    cleanPlan true [demoPlanA] = [demoPlanA] ∧
    cleanFact true [demoFactKeyMismatch] = [demoFactKeyMismatch] ∧
    (processData true true [demoPlanA] [demoFactKeyMismatch]).countP
      (fun r => decide (r.magazin = Val.vstr "S5" ∧
        r.ART = Val.vstr "A1")) = 2 ∧
    (processData true false [demoPlanA] []).map (fun r => r.Fact_STUKI) =
      [Val.vnull] := by
  refine ⟨by decide, by decide, by decide, rfl⟩

/-- C2 (corrected): with the fill-zeros option on (its default), every
non-percentage numeric column of every reconciled row is a number (never
null); and a row whose key is absent from the cleaned Plan side has
plan_qty = plan_amount = price = 0, fact_amount = fact_qty * 0 = 0,
qty_variance = fact_qty and amount_variance = 0.  (The percentage columns
are excluded: they can hold infinity.) -/
theorem zero_fill_before_derivation (rd : Bool) (plan : List PlanRow)
    (fact : List FactRow) (r : DRow)
    (hr : r ∈ processData rd true plan fact) :
    (r.Plan_STUKI.isNum = true ∧ r.Fact_STUKI.isNum = true ∧
      r.Plan_GRN.isNum = true ∧ r.Price.isNum = true ∧
      r.Fact_GRN.isNum = true ∧ r.Otkl_sht.isNum = true ∧
      r.Otkl_grn.isNum = true) ∧
    (r.key ∉ (cleanPlan rd plan).map PlanRow.key →
      r.Plan_STUKI = Val.vnum 0 ∧ r.Plan_GRN = Val.vnum 0 ∧
      r.Price = Val.vnum 0 ∧ r.Fact_GRN = Val.vnum 0 ∧
      r.Otkl_sht = r.Fact_STUKI ∧ r.Otkl_grn = Val.vnum 0) := by
  rcases List.mem_map.mp hr with ⟨m, hm, hrm⟩
  subst hrm
  obtain ⟨pq, hpq⟩ := numFill_true_num m.Plan_STUKI
  obtain ⟨fq, hfq⟩ := numFill_true_num m.Fact_STUKI
  obtain ⟨pg, hpg⟩ := numFill_true_num m.Plan_GRN
  obtain ⟨pr, hpr⟩ := numFill_true_num m.Price
  constructor
  · refine ⟨?_, ?_, ?_, ?_, ?_, ?_, ?_⟩
    · show (Val.numFill true m.Plan_STUKI).isNum = true
      rw [hpq]
      rfl
    · show (Val.numFill true m.Fact_STUKI).isNum = true
      rw [hfq]
      rfl
    · show (Val.numFill true m.Plan_GRN).isNum = true
      rw [hpg]
      rfl
    · show (Val.numFill true m.Price).isNum = true
      rw [hpr]
      rfl
    · show (Val.vmul (Val.numFill true m.Fact_STUKI)
        (Val.numFill true m.Price)).isNum = true
      rw [hfq, hpr]
      rfl
    · show (Val.vsub (Val.numFill true m.Fact_STUKI)
        (Val.numFill true m.Plan_STUKI)).isNum = true
      rw [hfq, hpq]
      rfl
    · show (Val.vsub (Val.vmul (Val.numFill true m.Fact_STUKI)
        (Val.numFill true m.Price))
          (Val.numFill true m.Plan_GRN)).isNum = true
      rw [hfq, hpr, hpg]
      rfl
  · intro hkey
    obtain ⟨h1, h2, h3⟩ := mem_outerMerge_planNull (cleanPlan rd plan)
      (cleanFact rd fact) m hm hkey
    refine ⟨?_, ?_, ?_, ?_, ?_, ?_⟩
    · show Val.numFill true m.Plan_STUKI = Val.vnum 0
      rw [h1]
      rfl
    · show Val.numFill true m.Plan_GRN = Val.vnum 0
      rw [h2]
      rfl
    · show Val.numFill true m.Price = Val.vnum 0
      rw [h3]
      rfl
    · show Val.vmul (Val.numFill true m.Fact_STUKI)
        (Val.numFill true m.Price) = Val.vnum 0
      rw [hfq, h3]
      show Val.vnum (fq * 0) = Val.vnum 0
      rw [mul_zero]
    · show Val.vsub (Val.numFill true m.Fact_STUKI)
        (Val.numFill true m.Plan_STUKI) = Val.numFill true m.Fact_STUKI
      rw [hfq, h1]
      show Val.vnum (fq - 0) = Val.vnum fq
      rw [sub_zero]
    · show Val.vsub (Val.vmul (Val.numFill true m.Fact_STUKI)
        (Val.numFill true m.Price)) (Val.numFill true m.Plan_GRN) =
          Val.vnum 0
      rw [hfq, h3, h2]
      show Val.vnum (fq * 0 - 0) = Val.vnum 0
      congr 1
      ring

/-- C2 witness: the Fact-only demo row gets a zero plan quantity. -/
theorem zero_fill_before_derivation_witness :
    (deriveRow true (factOnlyRow demoFactOnly)).Plan_STUKI = Val.vnum 0 :=
  ((zero_fill_before_derivation true [] [demoFactOnly]
    (deriveRow true (factOnlyRow demoFactOnly))
    (by exact List.Mem.head _)).2 (by decide)).1

/-- C2 counterexample: the reconciled row of a Fact-only product carries the
floating-point infinity in its percentage column (so not every numeric field
is finite), and with the fill-zeros option off the missing plan quantity
stays null instead of being filled with 0. -/
theorem fact_only_row_not_all_finite :
    (processData true true [] [demoFactOnly]).map
      (fun r => r.Otkl_pct_sht) = [RPct.inf] ∧
    (processData true false [] [demoFactOnly]).map
      (fun r => r.Plan_STUKI) = [Val.vnull] := by
  constructor
  · have hlist : processData true true [] [demoFactOnly] =
        [deriveRow true (factOnlyRow demoFactOnly)] := rfl
    rw [hlist, List.map_cons, List.map_nil]
    have h : (deriveRow true (factOnlyRow demoFactOnly)).Otkl_pct_sht =
        RPct.inf := by
      show rowPct (Val.vnum 0) (Val.vnum (4 - 0)) = RPct.inf
      unfold rowPct
      norm_num [Val.gtZeroB, Val.neZeroB]
    rw [h]
  · rfl

/-- Summary percentage with a positive plan: the absolute ratio. -/
theorem summaryPct_pos (p d : ℚ) (hp : 0 < p) :
    summaryPct p d = SPct.num (|d| / p * 100) := by
  unfold summaryPct
  rw [if_pos hp]

/-- Summary percentage with zero plan and zero deviation: zero. -/
theorem summaryPct_zero (p d : ℚ) (h0 : p = 0) (hd : d = 0) :
    summaryPct p d = SPct.num 0 := by
  unfold summaryPct
  rw [if_neg (by rw [h0]; exact lt_irrefl 0), if_neg (by simp [hd])]

/-- Summary percentage with zero plan and nonzero deviation: infinity. -/
theorem summaryPct_inf (p d : ℚ) (h0 : p = 0) (hd : d ≠ 0) :
    summaryPct p d = SPct.inf := by
  unfold summaryPct
  rw [if_neg (by rw [h0]; exact lt_irrefl 0), if_pos hd]

/-- C3 (corrected): the percentage columns follow the code's branch
structure at row and summary level: a POSITIVE plan gives the exact ratio
(signed at row level, absolute at summary level); a zero plan with zero
deviation gives 0; a zero plan with nonzero deviation gives the
floating-point infinity np.inf — the sentinel is not finite, and the guard
is plan > 0, not plan != 0. -/
theorem pct_branches_and_inf_sentinel (rd fz : Bool) (plan : List PlanRow)
    (fact : List FactRow) (r : DRow)
    (hr : r ∈ processData rd fz plan fact) (s : StoreSummary)
    (hs : s ∈ storeSummary (processData rd fz plan fact)) :
    (∀ p d : ℚ, 0 < p → r.Plan_STUKI = Val.vnum p →
      r.Otkl_sht = Val.vnum d → r.Otkl_pct_sht = RPct.num (d / p * 100)) ∧
    (r.Plan_STUKI = Val.vnum 0 → r.Otkl_sht = Val.vnum 0 →
      r.Otkl_pct_sht = RPct.num 0) ∧
    (∀ d : ℚ, r.Plan_STUKI = Val.vnum 0 → d ≠ 0 →
      r.Otkl_sht = Val.vnum d → r.Otkl_pct_sht = RPct.inf) ∧
    (0 < s.Plan_STUKI →
      s.Otkl_pct_sht = SPct.num (|s.Otkl_sht| / s.Plan_STUKI * 100)) ∧
    (s.Plan_STUKI = 0 → s.Otkl_sht = 0 → s.Otkl_pct_sht = SPct.num 0) ∧
    (s.Plan_STUKI = 0 → s.Otkl_sht ≠ 0 → s.Otkl_pct_sht = SPct.inf) := by
  rcases List.mem_map.mp hr with ⟨m, _, hrm⟩
  subst hrm
  rcases List.mem_map.mp hs with ⟨k2, _, hsk⟩
  subst hsk
  have hpct : (deriveRow fz m).Otkl_pct_sht =
      rowPct ((deriveRow fz m).Plan_STUKI) ((deriveRow fz m).Otkl_sht) := rfl
  refine ⟨?_, ?_, ?_, ?_, ?_, ?_⟩
  · intro p d hp h1 h2
    rw [hpct, h1, h2]
    unfold rowPct
    rw [if_pos (by simpa [Val.gtZeroB] using hp)]
  · intro h1 h2
    rw [hpct, h1, h2]
    unfold rowPct
    rw [if_neg (by simp [Val.gtZeroB]), if_neg (by simp [Val.neZeroB])]
  · intro d h1 hd h2
    rw [hpct, h1, h2]
    unfold rowPct
    rw [if_neg (by simp [Val.gtZeroB]), if_pos (by simp [Val.neZeroB, hd])]
  · intro hp
    exact summaryPct_pos _ _ hp
  · intro h0 hd
    exact summaryPct_zero _ _ h0 hd
  · intro h0 hd
    exact summaryPct_inf _ _ h0 hd

/-- C3 witness: the matched demo row's percentage is the exact signed
ratio. -/
theorem pct_branches_and_inf_sentinel_witness :
    (deriveRow true (combineRow demoPlanA demoFactMatch)).Otkl_pct_sht =
      RPct.num ((4 - 10) / 10 * 100) :=
  (pct_branches_and_inf_sentinel true true [demoPlanA] [demoFactMatch]
    (deriveRow true (combineRow demoPlanA demoFactMatch))
    (by exact List.Mem.head _)
    (mkStoreSummary (processData true true [demoPlanA] [demoFactMatch])
      (Val.vstr "S5"))
    (by
      have hg : storeGroups
          (processData true true [demoPlanA] [demoFactMatch]) =
          [Val.vstr "S5"] := by decide
      unfold storeSummary
      rw [hg]
      exact List.mem_singleton.mpr rfl)).1 10 (4 - 10) (by norm_num) rfl rfl

/-- C3 counterexample: a Fact-only product (plan 0, fact 4) receives the
floating-point infinity as its percentage, not a finite sentinel; and a
NEGATIVE nonzero plan (-5) also falls into the infinity branch instead of
the ratio the claim prescribes for nonzero plans. -/
theorem pct_sentinel_is_infinity :
    (processData true true [] [demoFactOnly]).map
      (fun r => r.Otkl_pct_sht) = [RPct.inf] ∧
    (processData true true [demoPlanNegative] []).map
      (fun r => r.Otkl_pct_sht) = [RPct.inf] ∧
    ∀ q : ℚ, RPct.inf ≠ RPct.num q := by
  refine ⟨?_, ?_, fun q h => RPct.noConfusion h⟩
  · have hlist : processData true true [] [demoFactOnly] =
        [deriveRow true (factOnlyRow demoFactOnly)] := rfl
    rw [hlist, List.map_cons, List.map_nil]
    have h : (deriveRow true (factOnlyRow demoFactOnly)).Otkl_pct_sht =
        RPct.inf := by
      show rowPct (Val.vnum 0) (Val.vnum (4 - 0)) = RPct.inf
      unfold rowPct
      norm_num [Val.gtZeroB, Val.neZeroB]
    rw [h]
  · have hlist : processData true true [demoPlanNegative] [] =
        [deriveRow true (planOnlyRow demoPlanNegative)] := rfl
    rw [hlist, List.map_cons, List.map_nil]
    have h : (deriveRow true (planOnlyRow demoPlanNegative)).Otkl_pct_sht =
        RPct.inf := by
      show rowPct (Val.vnum (-5)) (Val.vnum (0 - (-5))) = RPct.inf
      unfold rowPct
      norm_num [Val.gtZeroB, Val.neZeroB]
    rw [h]

end PlanFact
